import Mathlib

/-!
Verification of the BigQuery-to-DuckDB SQL command-line utility
(`DataWarehousing/main.py`), shallowly embedded in Lean.

The embedding follows the Python source:
* `translate_bigquery_sql` performs two ordered global regex-substitution
  passes over the text followed by a backtick cleanup pass;
* `sanitize_table_name` maps a raw name into a safe identifier;
* `register_parquet_tables` discovers, sorts and registers parquet files;
* `print_results` renders a query result as an aligned text table;
* `main` wires the components together.

Python regex substitution (`re.sub`) is modelled as a leftmost, non
overlapping scan; both table patterns are anchored on a literal backtick
and their character classes exclude the dot and backtick separators, so
greedy matching with backtracking collapses to maximal-run (`takeWhile`)
matching, which is what the matchers below implement.
-/

namespace DataWarehousing

/-- The backtick character (code point 96), written via `Char.ofNat`. -/
def bq : Char := Char.ofNat 96

/-- The double-quote character (code point 34). -/
def dq : Char := '"'

/-- Characters matched by the regex class `[A-Za-z0-9_]` used for the
`dataset` and `table` capture groups. -/
def isWordChar (c : Char) : Bool :=
  decide ((65 ≤ c.toNat ∧ c.toNat ≤ 90) ∨ (97 ≤ c.toNat ∧ c.toNat ≤ 122) ∨
    (48 ≤ c.toNat ∧ c.toNat ≤ 57) ∨ c.toNat = 95)

/-- Characters matched by the regex class `[A-Za-z0-9_-]` used for the
optional `project` capture group (word characters plus the hyphen). -/
def isProjectChar (c : Char) : Bool :=
  isWordChar c || decide (c.toNat = 45)

/-- Match one nonempty maximal run of characters satisfying `p`
(the semantics of a greedy `+` over a character class that excludes
the character required next by the pattern). -/
def seg (p : Char → Bool) (cs : List Char) : Option (List Char × List Char) :=
  if (cs.takeWhile p).isEmpty then none
  else some (cs.takeWhile p, cs.dropWhile p)

/-- Match one literal character. -/
def expectChar (c : Char) : List Char → Option (List Char)
  | d :: rest => if d = c then some rest else none
  | [] => none

/-- Attempt of `BIGQUERY_TABLE_PATTERN` (after its opening backtick) with the
optional project group present: `project "." dataset "." table "` "`" `.
Returns the captured dataset and table and the text after the match. -/
def tryWithProject (cs : List Char) : Option (List Char × List Char × List Char) :=
  match seg isProjectChar cs with
  | none => none
  | some (_, r1) =>
  match expectChar '.' r1 with
  | none => none
  | some r2 =>
  match seg isWordChar r2 with
  | none => none
  | some (d, r3) =>
  match expectChar '.' r3 with
  | none => none
  | some r4 =>
  match seg isWordChar r4 with
  | none => none
  | some (t, r5) =>
  match expectChar bq r5 with
  | none => none
  | some rest => some (d, t, rest)

/-- Attempt of `BIGQUERY_TWO_PART_PATTERN` (after its opening backtick):
`dataset "." table "` "`". Also the project-absent attempt of
`BIGQUERY_TABLE_PATTERN`. -/
def tryTwoSeg (cs : List Char) : Option (List Char × List Char × List Char) :=
  match seg isWordChar cs with
  | none => none
  | some (d, r1) =>
  match expectChar '.' r1 with
  | none => none
  | some r2 =>
  match seg isWordChar r2 with
  | none => none
  | some (t, r3) =>
  match expectChar bq r3 with
  | none => none
  | some rest => some (d, t, rest)

/-- Full attempt of `BIGQUERY_TABLE_PATTERN` after its opening backtick: the
greedy optional group tries the project-present form first, then falls back
to the project-absent form. -/
def tryThreePart (cs : List Char) : Option (List Char × List Char × List Char) :=
  match tryWithProject cs with
  | some r => some r
  | none => tryTwoSeg cs

/-- Replacement `f'"{dataset}"."{table}"'` used by `replace_three_part`. -/
def replThree (d t : List Char) : List Char :=
  dq :: d ++ dq :: '.' :: dq :: t ++ [dq]

/-- Replacement used by `replace_two_part`: the dataset group, with a fall
back to the caller-supplied default dataset when the captured group is
empty (`match.group("dataset") or default_dataset`). -/
def replTwo (dflt d t : List Char) : List Char :=
  dq :: (if d.isEmpty then dflt else d) ++ dq :: '.' :: dq :: t ++ [dq]

/-- One regex-substitution pass of `re.sub` for a backtick-anchored pattern:
scan left to right; at each backtick attempt the match `m`; on success emit
the replacement and continue after the match, otherwise keep the character
and move on.  The fuel argument only drives termination; `cs.length` fuel
always suffices because every match consumes at least its opening backtick. -/
def reSub (m : List Char → Option (List Char × List Char)) : Nat → List Char → List Char
  | 0, cs => cs
  | _ + 1, [] => []
  | fuel + 1, c :: cs =>
    if c = bq then
      match m cs with
      | some (r, rest) => r ++ reSub m fuel rest
      | none => bq :: reSub m fuel cs
    else c :: reSub m fuel cs

/-- Run one substitution pass with sufficient fuel. -/
def runSub (m : List Char → Option (List Char × List Char)) (cs : List Char) : List Char :=
  reSub m cs.length cs

/-- Matcher of pass 1 (`BIGQUERY_TABLE_PATTERN` with `replace_three_part`). -/
def matcherThree (cs : List Char) : Option (List Char × List Char) :=
  match tryThreePart cs with
  | some (d, t, rest) => some (replThree d t, rest)
  | none => none

/-- Matcher of pass 2 (`BIGQUERY_TWO_PART_PATTERN` with `replace_two_part`). -/
def matcherTwo (dflt : List Char) (cs : List Char) : Option (List Char × List Char) :=
  match tryTwoSeg cs with
  | some (d, t, rest) => some (replTwo dflt d t, rest)
  | none => none

/-- Cleanup pass: `translated.replace("`", '"')`. -/
def cleanup (cs : List Char) : List Char :=
  cs.map fun c => if c = bq then dq else c

/-- The translator `translate_bigquery_sql(sql, default_dataset)`:
pass 1 rewrites (optionally project-qualified) three-part references,
pass 2 rewrites two-part references, and the cleanup pass replaces every
remaining backtick with a double quote. -/
def translate_bigquery_sql (sql : String) (defaultDataset : String) : String :=
  let pass1 := runSub matcherThree sql.data
  let pass2 := runSub (matcherTwo defaultDataset.data) pass1
  ⟨cleanup pass2⟩

example : translate_bigquery_sql "SELECT * FROM `proj.ds.tbl`" "default" =
    "SELECT * FROM \"ds\".\"tbl\"" := by decide

example : translate_bigquery_sql "SELECT * FROM `ds.tbl`" "default" =
    "SELECT * FROM \"ds\".\"tbl\"" := by decide

example : translate_bigquery_sql "SELECT `col` FROM `my-proj.ds`" "default" =
    "SELECT \"col\" FROM \"my-proj.ds\"" := by decide

/-! ### Character-class facts -/

lemma wordChar_isProjectChar {c : Char} (h : isWordChar c = true) :
    isProjectChar c = true := by
  simp [isProjectChar, h]

lemma projectChar_ne_dot {c : Char} (h : isProjectChar c = true) : c ≠ '.' := by
  rintro rfl
  simp [isProjectChar, isWordChar] at h

lemma projectChar_ne_bq {c : Char} (h : isProjectChar c = true) : c ≠ bq := by
  rintro rfl
  simp [isProjectChar, isWordChar, bq] at h

lemma wordChar_ne_bq {c : Char} (h : isWordChar c = true) : c ≠ bq :=
  projectChar_ne_bq (wordChar_isProjectChar h)

lemma not_wordChar_dot : isWordChar '.' = false := by decide

lemma not_wordChar_bq : isWordChar bq = false := by decide

lemma not_projectChar_dot : isProjectChar '.' = false := by decide

lemma bq_ne_dot : bq ≠ '.' := by decide

/-! ### Facts about `seg` and `expectChar` -/

lemma seg_of_append {p : Char → Bool} {xs ys : List Char}
    (hall : ∀ c ∈ xs, p c = true) (hne : xs ≠ [])
    (hstop : ∀ y, ys.head? = some y → p y = false) :
    seg p (xs ++ ys) = some (xs, ys) := by
  have htw : (xs ++ ys).takeWhile p = xs := by
    rw [List.takeWhile_append_of_pos hall]
    cases ys with
    | nil => simp
    | cons y ys =>
      rw [List.takeWhile_cons_of_neg (by simp [hstop y (by rw [List.head?_cons])])]
      simp
  have hdw : (xs ++ ys).dropWhile p = ys := by
    rw [List.dropWhile_append_of_pos hall]
    cases ys with
    | nil => simp
    | cons y ys =>
      rw [List.dropWhile_cons_of_neg (by simp [hstop y (by rw [List.head?_cons])])]
  simp [seg, htw, hdw, hne]

lemma takeWhile_append_of_stop {p : Char → Bool} {xs : List Char}
    (h : xs.dropWhile p ≠ []) (ys : List Char) :
    (xs ++ ys).takeWhile p = xs.takeWhile p ∧
      (xs ++ ys).dropWhile p = xs.dropWhile p ++ ys := by
  induction xs with
  | nil => simp at h
  | cons x xs ih =>
    by_cases hp : p x
    · have h' : xs.dropWhile p ≠ [] := by
        simpa [List.dropWhile_cons_of_pos hp] using h
      have := ih h'
      simp [List.takeWhile_cons_of_pos hp, List.dropWhile_cons_of_pos hp, this.1, this.2]
    · simp [List.takeWhile_cons_of_neg hp, List.dropWhile_cons_of_neg hp]

lemma dropWhile_ne_nil_of_exists {p : Char → Bool} {xs : List Char}
    (h : ∃ c ∈ xs, p c = false) : xs.dropWhile p ≠ [] := by
  intro hnil
  obtain ⟨c, hc, hcp⟩ := h
  have htw : xs.takeWhile p = xs := by
    have := List.takeWhile_append_dropWhile (p := p) (l := xs)
    rwa [hnil, List.append_nil] at this
  have hpc : p c = true := List.mem_takeWhile_imp (htw ▸ hc)
  rw [hpc] at hcp
  exact Bool.noConfusion hcp

lemma dropWhile_head_not {p : Char → Bool} {xs : List Char} {y : Char} {ys : List Char}
    (h : xs.dropWhile p = y :: ys) : p y = false := by
  induction xs with
  | nil => simp at h
  | cons x xs ih =>
    cases hp : p x with
    | true => exact ih (by rw [List.dropWhile_cons_of_pos hp] at h; exact h)
    | false =>
      rw [List.dropWhile_cons_of_neg (by simp [hp])] at h
      cases h
      exact hp

lemma expectChar_some {c : Char} {l r : List Char} (h : expectChar c l = some r) :
    l = c :: r := by
  cases l with
  | nil => simp [expectChar] at h
  | cons d rest =>
    simp only [expectChar] at h
    split at h
    · cases h; simp_all
    · cases h

lemma seg_inv {p : Char → Bool} {cs s r : List Char} (h : seg p cs = some (s, r)) :
    s = cs.takeWhile p ∧ r = cs.dropWhile p ∧ s ≠ [] := by
  simp only [seg] at h
  split at h
  · cases h
  · cases h
    refine ⟨rfl, rfl, ?_⟩
    simpa [List.isEmpty_iff] using ‹¬(cs.takeWhile p).isEmpty = true›

/-! ### Success and failure of the table-pattern matchers on structured text -/

lemma tryTwoSeg_of_parts {d t rest : List Char}
    (hd : ∀ c ∈ d, isWordChar c = true) (hd0 : d ≠ [])
    (ht : ∀ c ∈ t, isWordChar c = true) (ht0 : t ≠ []) :
    tryTwoSeg (d ++ ('.' :: (t ++ (bq :: rest)))) = some (d, t, rest) := by
  have h1 : seg isWordChar (d ++ ('.' :: (t ++ (bq :: rest)))) =
      some (d, '.' :: (t ++ (bq :: rest))) :=
    seg_of_append hd hd0
      (by intro y hy; rw [List.head?_cons] at hy; cases hy; exact not_wordChar_dot)
  have h2 : seg isWordChar (t ++ (bq :: rest)) = some (t, bq :: rest) :=
    seg_of_append ht ht0
      (by intro y hy; rw [List.head?_cons] at hy; cases hy; exact not_wordChar_bq)
  simp [tryTwoSeg, h1, expectChar, h2]

lemma tryWithProject_of_parts {p d t rest : List Char}
    (hp : ∀ c ∈ p, isProjectChar c = true) (hp0 : p ≠ [])
    (hd : ∀ c ∈ d, isWordChar c = true) (hd0 : d ≠ [])
    (ht : ∀ c ∈ t, isWordChar c = true) (ht0 : t ≠ []) :
    tryWithProject (p ++ ('.' :: (d ++ ('.' :: (t ++ (bq :: rest)))))) =
      some (d, t, rest) := by
  have h1 : seg isProjectChar (p ++ ('.' :: (d ++ ('.' :: (t ++ (bq :: rest)))))) =
      some (p, '.' :: (d ++ ('.' :: (t ++ (bq :: rest))))) :=
    seg_of_append hp hp0
      (by intro y hy; rw [List.head?_cons] at hy; cases hy; exact not_projectChar_dot)
  have h2 : seg isWordChar (d ++ ('.' :: (t ++ (bq :: rest)))) =
      some (d, '.' :: (t ++ (bq :: rest))) :=
    seg_of_append hd hd0
      (by intro y hy; rw [List.head?_cons] at hy; cases hy; exact not_wordChar_dot)
  have h3 : seg isWordChar (t ++ (bq :: rest)) = some (t, bq :: rest) :=
    seg_of_append ht ht0
      (by intro y hy; rw [List.head?_cons] at hy; cases hy; exact not_wordChar_bq)
  simp [tryWithProject, h1, expectChar, h2, h3]

lemma tryWithProject_twoparts_none {d t rest : List Char}
    (hd : ∀ c ∈ d, isWordChar c = true) (hd0 : d ≠ [])
    (ht : ∀ c ∈ t, isWordChar c = true) (ht0 : t ≠ []) :
    tryWithProject (d ++ ('.' :: (t ++ (bq :: rest)))) = none := by
  have h1 : seg isProjectChar (d ++ ('.' :: (t ++ (bq :: rest)))) =
      some (d, '.' :: (t ++ (bq :: rest))) :=
    seg_of_append (fun c hc => wordChar_isProjectChar (hd c hc)) hd0
      (by intro y hy; rw [List.head?_cons] at hy; cases hy; exact not_projectChar_dot)
  have h2 : seg isWordChar (t ++ (bq :: rest)) = some (t, bq :: rest) :=
    seg_of_append ht ht0
      (by intro y hy; rw [List.head?_cons] at hy; cases hy; exact not_wordChar_bq)
  simp [tryWithProject, h1, expectChar, h2, bq_ne_dot]

lemma tryThreePart_twoparts {d t rest : List Char}
    (hd : ∀ c ∈ d, isWordChar c = true) (hd0 : d ≠ [])
    (ht : ∀ c ∈ t, isWordChar c = true) (ht0 : t ≠ []) :
    tryThreePart (d ++ ('.' :: (t ++ (bq :: rest)))) = some (d, t, rest) := by
  simp [tryThreePart, tryWithProject_twoparts_none hd hd0 ht ht0,
    tryTwoSeg_of_parts hd hd0 ht ht0]

lemma tryThreePart_threeparts {p d t rest : List Char}
    (hp : ∀ c ∈ p, isProjectChar c = true) (hp0 : p ≠ [])
    (hd : ∀ c ∈ d, isWordChar c = true) (hd0 : d ≠ [])
    (ht : ∀ c ∈ t, isWordChar c = true) (ht0 : t ≠ []) :
    tryThreePart (p ++ ('.' :: (d ++ ('.' :: (t ++ (bq :: rest)))))) =
      some (d, t, rest) := by
  simp [tryThreePart, tryWithProject_of_parts hp hp0 hd hd0 ht ht0]

lemma tryTwoSeg_hyphen_none {s1 s2 rest : List Char}
    (h1 : ∀ c ∈ s1, isProjectChar c = true) (hhy : ∃ c ∈ s1, isWordChar c = false) :
    tryTwoSeg (s1 ++ ('.' :: (s2 ++ (bq :: rest)))) = none := by
  have hdw : s1.dropWhile isWordChar ≠ [] := dropWhile_ne_nil_of_exists hhy
  obtain ⟨htw, hdw'⟩ := takeWhile_append_of_stop hdw ('.' :: (s2 ++ (bq :: rest)))
  obtain ⟨y, ys, hy⟩ := List.exists_cons_of_ne_nil hdw
  have hymem : y ∈ s1 :=
    (List.dropWhile_sublist isWordChar).subset (by rw [hy]; exact List.mem_cons_self y ys)
  have hynd : y ≠ '.' := projectChar_ne_dot (h1 y hymem)
  by_cases he : (s1.takeWhile isWordChar).isEmpty = true
  · simp [tryTwoSeg, seg, htw, hdw', he]
  · simp [tryTwoSeg, seg, htw, hdw', he, hy, expectChar, hynd]

lemma tryWithProject_hyphen_none {s1 s2 rest : List Char}
    (h1 : ∀ c ∈ s1, isProjectChar c = true) (h10 : s1 ≠ [])
    (h2 : ∀ c ∈ s2, isWordChar c = true) (h20 : s2 ≠ []) :
    tryWithProject (s1 ++ ('.' :: (s2 ++ (bq :: rest)))) = none := by
  have ha : seg isProjectChar (s1 ++ ('.' :: (s2 ++ (bq :: rest)))) =
      some (s1, '.' :: (s2 ++ (bq :: rest))) :=
    seg_of_append h1 h10
      (by intro y hy; rw [List.head?_cons] at hy; cases hy; exact not_projectChar_dot)
  have hb : seg isWordChar (s2 ++ (bq :: rest)) = some (s2, bq :: rest) :=
    seg_of_append h2 h20
      (by intro y hy; rw [List.head?_cons] at hy; cases hy; exact not_wordChar_bq)
  simp [tryWithProject, ha, expectChar, hb, bq_ne_dot]

lemma tryThreePart_hyphen_none {s1 s2 rest : List Char}
    (h1 : ∀ c ∈ s1, isProjectChar c = true) (hhy : ∃ c ∈ s1, isWordChar c = false)
    (h10 : s1 ≠ []) (h2 : ∀ c ∈ s2, isWordChar c = true) (h20 : s2 ≠ []) :
    tryThreePart (s1 ++ ('.' :: (s2 ++ (bq :: rest)))) = none := by
  simp [tryThreePart, tryWithProject_hyphen_none h1 h10 h2 h20,
    tryTwoSeg_hyphen_none h1 hhy]

/-! ### Inversion: a successful match captures nonempty word-character
segments and its residual text sits inside the input, past a backtick. -/

lemma tryTwoSeg_inv {cs d t rest : List Char} (h : tryTwoSeg cs = some (d, t, rest)) :
    (∀ c ∈ d, isWordChar c = true) ∧ d ≠ [] ∧ (∀ c ∈ t, isWordChar c = true) ∧ t ≠ [] ∧
      rest.Sublist cs ∧ bq ∈ cs := by
  simp only [tryTwoSeg] at h
  split at h
  · cases h
  · rename_i d1 r1 hs1
    obtain ⟨he1, he2, hne1⟩ := seg_inv hs1
    subst he1; subst he2
    split at h
    · cases h
    · rename_i r2 hr2
      have h2 : cs.dropWhile isWordChar = '.' :: r2 := expectChar_some hr2
      have hr2cs : r2.Sublist cs := by
        refine (List.sublist_cons_self '.' r2).trans ?_
        rw [← h2]; exact List.dropWhile_sublist _
      split at h
      · cases h
      · rename_i t1 r3 hs2
        obtain ⟨he3, he4, hne2⟩ := seg_inv hs2
        subst he3; subst he4
        split at h
        · cases h
        · rename_i rest1 hr4
          cases h
          have h4 : r2.dropWhile isWordChar = bq :: rest := expectChar_some hr4
          have hrest : rest.Sublist cs := by
            refine List.Sublist.trans
              (List.Sublist.trans (List.sublist_cons_self bq rest) ?_) hr2cs
            rw [← h4]; exact List.dropWhile_sublist _
          refine ⟨fun c hc => List.mem_takeWhile_imp hc, hne1,
            fun c hc => List.mem_takeWhile_imp hc, hne2, hrest, ?_⟩
          have hb : bq ∈ r2.dropWhile isWordChar := by
            rw [h4]; exact List.mem_cons_self bq rest
          exact hr2cs.subset ((List.dropWhile_sublist isWordChar).subset hb)

lemma tryWithProject_inv {cs d t rest : List Char}
    (h : tryWithProject cs = some (d, t, rest)) :
    (∀ c ∈ d, isWordChar c = true) ∧ d ≠ [] ∧ (∀ c ∈ t, isWordChar c = true) ∧ t ≠ [] ∧
      rest.Sublist cs ∧ bq ∈ cs := by
  simp only [tryWithProject] at h
  split at h
  · cases h
  · rename_i p1 r1 hs1
    obtain ⟨he1, he2, hne0⟩ := seg_inv hs1
    subst he1; subst he2
    split at h
    · cases h
    · rename_i r2 hr2
      have h2 : cs.dropWhile isProjectChar = '.' :: r2 := expectChar_some hr2
      have hr2cs : r2.Sublist cs := by
        refine (List.sublist_cons_self '.' r2).trans ?_
        rw [← h2]; exact List.dropWhile_sublist _
      split at h
      · cases h
      · rename_i d1 r3 hs2
        obtain ⟨he3, he4, hne1⟩ := seg_inv hs2
        subst he3; subst he4
        split at h
        · cases h
        · rename_i r4 hr4
          have h4 : r2.dropWhile isWordChar = '.' :: r4 := expectChar_some hr4
          have hr4r2 : r4.Sublist r2 := by
            refine (List.sublist_cons_self '.' r4).trans ?_
            rw [← h4]; exact List.dropWhile_sublist _
          split at h
          · cases h
          · rename_i t1 r5 hs3
            obtain ⟨he5, he6, hne2⟩ := seg_inv hs3
            subst he5; subst he6
            split at h
            · cases h
            · rename_i rest1 hr6
              cases h
              have h6 : r4.dropWhile isWordChar = bq :: rest := expectChar_some hr6
              have hrest : rest.Sublist cs := by
                refine List.Sublist.trans
                  (List.Sublist.trans (List.sublist_cons_self bq rest) ?_)
                  (hr4r2.trans hr2cs)
                rw [← h6]; exact List.dropWhile_sublist _
              refine ⟨fun c hc => List.mem_takeWhile_imp hc, hne1,
                fun c hc => List.mem_takeWhile_imp hc, hne2, hrest, ?_⟩
              have hb : bq ∈ r4.dropWhile isWordChar := by
                rw [h6]; exact List.mem_cons_self bq rest
              exact (hr4r2.trans hr2cs).subset
                ((List.dropWhile_sublist isWordChar).subset hb)

lemma tryThreePart_inv {cs d t rest : List Char}
    (h : tryThreePart cs = some (d, t, rest)) :
    (∀ c ∈ d, isWordChar c = true) ∧ d ≠ [] ∧ (∀ c ∈ t, isWordChar c = true) ∧ t ≠ [] ∧
      rest.Sublist cs ∧ bq ∈ cs := by
  simp only [tryThreePart] at h
  split at h
  · rename_i r hr
    cases h
    exact tryWithProject_inv hr
  · exact tryTwoSeg_inv h

/-! ### Facts about the pass matchers -/

lemma matcherThree_rest_le {cs r rest : List Char}
    (h : matcherThree cs = some (r, rest)) : rest.length ≤ cs.length := by
  simp only [matcherThree] at h
  split at h
  · rename_i d t rest1 htr
    cases h
    exact (tryThreePart_inv htr).2.2.2.2.1.length_le
  · cases h

lemma matcherTwo_rest_le {dflt cs r rest : List Char}
    (h : matcherTwo dflt cs = some (r, rest)) : rest.length ≤ cs.length := by
  simp only [matcherTwo] at h
  split at h
  · rename_i d t rest1 htr
    cases h
    exact (tryTwoSeg_inv htr).2.2.2.2.1.length_le
  · cases h

lemma matcherThree_none_of_noBT {cs : List Char} (h : ∀ c ∈ cs, c ≠ bq) :
    matcherThree cs = none := by
  simp only [matcherThree]
  split
  · rename_i d t rest htr
    exact absurd ((tryThreePart_inv htr).2.2.2.2.2) (by simpa using fun hb => h bq hb rfl)
  · rfl

lemma matcherTwo_none_of_noBT {dflt : List Char} {cs : List Char} (h : ∀ c ∈ cs, c ≠ bq) :
    matcherTwo dflt cs = none := by
  simp only [matcherTwo]
  split
  · rename_i d t rest htr
    exact absurd ((tryTwoSeg_inv htr).2.2.2.2.2) (by simpa using fun hb => h bq hb rfl)
  · rfl

/-- The dataset capture of the two-part pattern is structurally nonempty, so
the `or default_dataset` fallback inside `replace_two_part` is never taken:
pass 2 behaves identically for any two default datasets. -/
lemma matcherTwo_default_irrel (d1 d2 : List Char) (cs : List Char) :
    matcherTwo d1 cs = matcherTwo d2 cs := by
  simp only [matcherTwo]
  split
  · rename_i d t rest htr
    have hd0 : d ≠ [] := (tryTwoSeg_inv htr).2.1
    simp [replTwo, hd0]
  · rfl

/-! ### The substitution scanner -/

lemma reSub_fuel {m : List Char → Option (List Char × List Char)}
    (Hm : ∀ cs r rest, m cs = some (r, rest) → rest.length ≤ cs.length) :
    ∀ f g cs, cs.length ≤ f → cs.length ≤ g → reSub m f cs = reSub m g cs := by
  intro f
  induction f with
  | zero =>
    intro g cs hf _
    have : cs = [] := List.eq_nil_of_length_eq_zero (Nat.le_zero.mp hf)
    subst this
    cases g <;> rfl
  | succ f ih =>
    intro g cs hf hg
    cases cs with
    | nil => cases g <;> rfl
    | cons c cs =>
      cases g with
      | zero => exact absurd hg (by simp)
      | succ g =>
        have hlenf : cs.length ≤ f := by simpa using hf
        have hleng : cs.length ≤ g := by simpa using hg
        by_cases hc : c = bq
        · subst hc
          cases hm : m cs with
          | none =>
            have e1 : reSub m (f + 1) (bq :: cs) = bq :: reSub m f cs := by
              simp [reSub, hm]
            have e2 : reSub m (g + 1) (bq :: cs) = bq :: reSub m g cs := by
              simp [reSub, hm]
            rw [e1, e2, ih g cs hlenf hleng]
          | some pr =>
            obtain ⟨r, rest⟩ := pr
            have hrest : rest.length ≤ cs.length := Hm cs r rest hm
            have e1 : reSub m (f + 1) (bq :: cs) = r ++ reSub m f rest := by
              simp [reSub, hm]
            have e2 : reSub m (g + 1) (bq :: cs) = r ++ reSub m g rest := by
              simp [reSub, hm]
            rw [e1, e2, ih g rest (le_trans hrest hlenf) (le_trans hrest hleng)]
        · simp only [reSub, if_neg hc]
          rw [ih g cs hlenf hleng]

lemma runSub_nil {m : List Char → Option (List Char × List Char)} : runSub m [] = [] := rfl

lemma runSub_cons {m : List Char → Option (List Char × List Char)} {c : Char}
    {cs : List Char} (h : c ≠ bq) : runSub m (c :: cs) = c :: runSub m cs := by
  simp [runSub, reSub, h]

lemma runSub_bq_some {m : List Char → Option (List Char × List Char)}
    (Hm : ∀ cs r rest, m cs = some (r, rest) → rest.length ≤ cs.length)
    {cs r rest : List Char} (h : m cs = some (r, rest)) :
    runSub m (bq :: cs) = r ++ runSub m rest := by
  have e1 : runSub m (bq :: cs) = r ++ reSub m cs.length rest := by
    simp [runSub, reSub, h]
  rw [e1, reSub_fuel Hm cs.length rest.length rest (Hm cs r rest h) (Nat.le_refl _)]
  rfl

lemma runSub_bq_none {m : List Char → Option (List Char × List Char)}
    {cs : List Char} (h : m cs = none) :
    runSub m (bq :: cs) = bq :: runSub m cs := by
  simp [runSub, reSub, h]

lemma runSub_of_noBT {m : List Char → Option (List Char × List Char)}
    {cs : List Char} (h : ∀ c ∈ cs, c ≠ bq) : runSub m cs = cs := by
  induction cs with
  | nil => rfl
  | cons c cs ih =>
    rw [runSub_cons (h c (List.mem_cons_self c cs))]
    rw [ih (fun x hx => h x (List.mem_cons_of_mem c hx))]

lemma runSub_append_noBT {m : List Char → Option (List Char × List Char)}
    {pre : List Char} (cs : List Char) (h : ∀ c ∈ pre, c ≠ bq) :
    runSub m (pre ++ cs) = pre ++ runSub m cs := by
  induction pre with
  | nil => rfl
  | cons c pre ih =>
    rw [List.cons_append, runSub_cons (h c (List.mem_cons_self c pre))]
    rw [ih (fun x hx => h x (List.mem_cons_of_mem c hx)), List.cons_append]

/-! ### Facts about the cleanup pass -/

lemma cleanup_noBT {cs : List Char} (h : ∀ c ∈ cs, c ≠ bq) : cleanup cs = cs := by
  simp only [cleanup]
  conv_rhs => rw [← List.map_id cs]
  refine List.map_congr_left ?_
  intro c hc
  simp [h c hc]

lemma cleanup_no_bq (cs : List Char) : ∀ c ∈ cleanup cs, c ≠ bq := by
  intro c hc
  simp only [cleanup, List.mem_map] at hc
  obtain ⟨c', _, rfl⟩ := hc
  split
  · decide
  · assumption

lemma cleanup_append (a b : List Char) : cleanup (a ++ b) = cleanup a ++ cleanup b := by
  simp [cleanup]

lemma cleanup_cons_bq (cs : List Char) : cleanup (bq :: cs) = dq :: cleanup cs := by
  simp [cleanup]

/-! ### The two substitution passes on structured reference text -/

/-- Backtick-free strings (such text is scanned over unchanged). -/
abbrev NoBT (s : String) : Prop := ∀ c ∈ s.data, c ≠ bq

/-- Strings of `[A-Za-z0-9_]` characters only. -/
abbrev AllWord (s : String) : Prop := ∀ c ∈ s.data, isWordChar c = true

/-- Strings of `[A-Za-z0-9_-]` characters only. -/
abbrev AllProj (s : String) : Prop := ∀ c ∈ s.data, isProjectChar c = true

lemma translate_data (sql dflt : String) :
    (translate_bigquery_sql sql dflt).data =
      cleanup (runSub (matcherTwo dflt.data) (runSub matcherThree sql.data)) := rfl

lemma data_tick : "`".data = [bq] := by decide

lemma data_dot : ".".data = ['.'] := rfl

lemma replThree_noBT {d t : List Char} (hd : ∀ c ∈ d, isWordChar c = true)
    (ht : ∀ c ∈ t, isWordChar c = true) : ∀ c ∈ replThree d t, c ≠ bq := by
  intro c hc hceq
  subst hceq
  have h1 : isWordChar bq = false := by decide
  have h2 : ¬(bq = dq) := by decide
  have h3 : ¬(bq = '.') := by decide
  simp only [replThree, List.cons_append, List.mem_cons, List.mem_append,
    List.mem_singleton, h2, h3, false_or, or_false] at hc
  rcases hc with (h | h) | h
  · rw [hd bq h] at h1; cases h1
  · rw [ht bq h] at h1; cases h1
  · simp at h

lemma runSub_three_rewrite {pre p d t post : List Char}
    (hpre : ∀ c ∈ pre, c ≠ bq) (hpost : ∀ c ∈ post, c ≠ bq)
    (hp : ∀ c ∈ p, isProjectChar c = true) (hp0 : p ≠ [])
    (hd : ∀ c ∈ d, isWordChar c = true) (hd0 : d ≠ [])
    (ht : ∀ c ∈ t, isWordChar c = true) (ht0 : t ≠ []) :
    runSub matcherThree
        (pre ++ (bq :: (p ++ ('.' :: (d ++ ('.' :: (t ++ (bq :: post)))))))) =
      pre ++ (replThree d t ++ post) := by
  rw [runSub_append_noBT _ hpre]
  have hm : matcherThree (p ++ ('.' :: (d ++ ('.' :: (t ++ (bq :: post)))))) =
      some (replThree d t, post) := by
    simp [matcherThree, tryThreePart_threeparts hp hp0 hd hd0 ht ht0]
  rw [runSub_bq_some (fun _ _ _ h => matcherThree_rest_le h) hm, runSub_of_noBT hpost]

lemma runSub_twopart_pass1 {pre d t post : List Char}
    (hpre : ∀ c ∈ pre, c ≠ bq) (hpost : ∀ c ∈ post, c ≠ bq)
    (hd : ∀ c ∈ d, isWordChar c = true) (hd0 : d ≠ [])
    (ht : ∀ c ∈ t, isWordChar c = true) (ht0 : t ≠ []) :
    runSub matcherThree (pre ++ (bq :: (d ++ ('.' :: (t ++ (bq :: post)))))) =
      pre ++ (replThree d t ++ post) := by
  rw [runSub_append_noBT _ hpre]
  have hm : matcherThree (d ++ ('.' :: (t ++ (bq :: post)))) =
      some (replThree d t, post) := by
    simp [matcherThree, tryThreePart_twoparts hd hd0 ht ht0]
  rw [runSub_bq_some (fun _ _ _ h => matcherThree_rest_le h) hm, runSub_of_noBT hpost]

/-- Claim C1: for every project segment of `[A-Za-z0-9_-]` and dataset and
table segments of `[A-Za-z0-9_]`, the translator rewrites a backtick-quoted
three-segment reference to `"dataset"."table"` with the project dropped, and
a backtick-quoted two-segment reference to `"dataset"."table"`, in any
backtick-free context. -/
theorem translate_rewrites_table_refs (pre post p d t dflt : String)
    (hpre : NoBT pre) (hpost : NoBT post)
    (hp : AllProj p) (hp0 : p.data ≠ [])
    (hd : AllWord d) (hd0 : d.data ≠ [])
    (ht : AllWord t) (ht0 : t.data ≠ []) :
    translate_bigquery_sql (pre ++ "`" ++ p ++ "." ++ d ++ "." ++ t ++ "`" ++ post) dflt =
        pre ++ "\"" ++ d ++ "\".\"" ++ t ++ "\"" ++ post ∧
      translate_bigquery_sql (pre ++ "`" ++ d ++ "." ++ t ++ "`" ++ post) dflt =
        pre ++ "\"" ++ d ++ "\".\"" ++ t ++ "\"" ++ post := by
  have hout : ∀ c ∈ pre.data ++ (replThree d.data t.data ++ post.data), c ≠ bq := by
    intro c hc
    rcases List.mem_append.mp hc with h | h
    · exact hpre c h
    rcases List.mem_append.mp h with h | h
    · exact replThree_noBT hd ht c h
    · exact hpost c h
  constructor
  · apply String.ext
    rw [translate_data]
    have harg : (pre ++ "`" ++ p ++ "." ++ d ++ "." ++ t ++ "`" ++ post).data =
        pre.data ++ (bq :: (p.data ++ ('.' :: (d.data ++
          ('.' :: (t.data ++ (bq :: post.data))))))) := by
      simp [String.data_append, data_tick, data_dot, List.append_assoc]
      try decide
    rw [harg, runSub_three_rewrite hpre hpost hp hp0 hd hd0 ht ht0,
      runSub_of_noBT hout, cleanup_noBT hout]
    simp [String.data_append, replThree, List.append_assoc]
    try decide
  · apply String.ext
    rw [translate_data]
    have harg : (pre ++ "`" ++ d ++ "." ++ t ++ "`" ++ post).data =
        pre.data ++ (bq :: (d.data ++ ('.' :: (t.data ++ (bq :: post.data))))) := by
      simp [String.data_append, data_tick, data_dot, List.append_assoc]
      try decide
    rw [harg, runSub_twopart_pass1 hpre hpost hd hd0 ht ht0,
      runSub_of_noBT hout, cleanup_noBT hout]
    simp [String.data_append, replThree, List.append_assoc]
    try decide

/-- Claim C1, witnessed at the spec's concrete examples. -/
theorem translate_rewrites_table_refs_witness :
    translate_bigquery_sql "SELECT * FROM `proj.ds.tbl`" "default" =
        "SELECT * FROM \"ds\".\"tbl\"" ∧
      translate_bigquery_sql "SELECT * FROM `ds.tbl`" "default" =
        "SELECT * FROM \"ds\".\"tbl\"" := by
  obtain ⟨h1, h2⟩ := translate_rewrites_table_refs "SELECT * FROM " "" "proj" "ds" "tbl"
    "default" (by decide) (by decide) (by decide) (by decide) (by decide) (by decide)
    (by decide) (by decide)
  constructor
  · have e : ("SELECT * FROM " ++ "`" ++ "proj" ++ "." ++ "ds" ++ "." ++ "tbl" ++ "`" ++ ""
        : String) = "SELECT * FROM `proj.ds.tbl`" := by decide
    rw [← e, h1]
    decide
  · have e : ("SELECT * FROM " ++ "`" ++ "ds" ++ "." ++ "tbl" ++ "`" ++ "" : String) =
        "SELECT * FROM `ds.tbl`" := by decide
    rw [← e, h2]
    decide

/-- Claim C2: the translator's output contains no backtick, and applying the
translator to its own output is a no-op. -/
theorem translate_idempotent (sql d : String) :
    translate_bigquery_sql (translate_bigquery_sql sql d) d =
        translate_bigquery_sql sql d ∧
      ∀ c ∈ (translate_bigquery_sql sql d).data, c ≠ bq := by
  have hnb : ∀ c ∈ (translate_bigquery_sql sql d).data, c ≠ bq := cleanup_no_bq _
  refine ⟨?_, hnb⟩
  apply String.ext
  rw [translate_data, runSub_of_noBT hnb, runSub_of_noBT hnb, cleanup_noBT hnb]

/-- Claim C9: the translator's output never depends on the default dataset;
the two-part pattern's dataset capture is structurally nonempty, so the
`or default_dataset` fallback is dead. -/
theorem translate_default_irrelevant (sql d1 d2 : String) :
    translate_bigquery_sql sql d1 = translate_bigquery_sql sql d2 := by
  apply String.ext
  rw [translate_data, translate_data,
    funext (matcherTwo_default_irrel d1.data d2.data)]

/-- Claim C10: a backtick-quoted two-segment reference whose first segment
contains a hyphen matches neither table pattern, so only its backticks are
rewritten into double quotes. -/
theorem translate_hyphen_ref_only_quoted (pre post s1 s2 dflt : String)
    (hpre : NoBT pre) (hpost : NoBT post)
    (h1 : AllProj s1) (hhy : '-' ∈ s1.data)
    (h2 : AllWord s2) (h20 : s2.data ≠ []) :
    translate_bigquery_sql (pre ++ "`" ++ s1 ++ "." ++ s2 ++ "`" ++ post) dflt =
      pre ++ "\"" ++ s1 ++ "." ++ s2 ++ "\"" ++ post := by
  have h10 : s1.data ≠ [] := List.ne_nil_of_mem hhy
  have hhyE : ∃ c ∈ s1.data, isWordChar c = false := ⟨'-', hhy, by decide⟩
  have hs1nb : ∀ c ∈ s1.data, c ≠ bq := fun c hc => projectChar_ne_bq (h1 c hc)
  have hs2nb : ∀ c ∈ s2.data, c ≠ bq := fun c hc => wordChar_ne_bq (h2 c hc)
  have hbody : ∀ c ∈ s1.data ++ ('.' :: s2.data), c ≠ bq := by
    intro c hc
    rcases List.mem_append.mp hc with h | h
    · exact hs1nb c h
    rcases List.mem_cons.mp h with rfl | h
    · decide
    · exact hs2nb c h
  have hsplit : s1.data ++ ('.' :: (s2.data ++ (bq :: post.data))) =
      (s1.data ++ ('.' :: s2.data)) ++ (bq :: post.data) := by
    simp [List.append_assoc]
  have hm3 : matcherThree (s1.data ++ ('.' :: (s2.data ++ (bq :: post.data)))) = none := by
    simp [matcherThree, tryThreePart_hyphen_none h1 hhyE h10 h2 h20]
  have hm3post : matcherThree post.data = none := matcherThree_none_of_noBT hpost
  have hm2 : matcherTwo dflt.data (s1.data ++ ('.' :: (s2.data ++ (bq :: post.data)))) =
      none := by
    simp [matcherTwo, tryTwoSeg_hyphen_none h1 hhyE]
  have hm2post : matcherTwo dflt.data post.data = none := matcherTwo_none_of_noBT hpost
  apply String.ext
  rw [translate_data]
  have harg : (pre ++ "`" ++ s1 ++ "." ++ s2 ++ "`" ++ post).data =
      pre.data ++ (bq :: (s1.data ++ ('.' :: (s2.data ++ (bq :: post.data))))) := by
    simp [String.data_append, data_tick, data_dot, List.append_assoc]
    try decide
  rw [harg]
  rw [runSub_append_noBT _ hpre, runSub_bq_none hm3, hsplit,
    runSub_append_noBT _ hbody, runSub_bq_none hm3post, runSub_of_noBT hpost]
  rw [show (s1.data ++ ('.' :: s2.data)) ++ (bq :: post.data) =
      s1.data ++ ('.' :: (s2.data ++ (bq :: post.data))) from by simp [List.append_assoc]]
  rw [runSub_append_noBT _ hpre, runSub_bq_none hm2, hsplit,
    runSub_append_noBT _ hbody, runSub_bq_none hm2post, runSub_of_noBT hpost]
  rw [cleanup_append, cleanup_noBT hpre, cleanup_cons_bq, cleanup_append,
    cleanup_noBT hbody, cleanup_cons_bq, cleanup_noBT hpost]
  simp [String.data_append, List.append_assoc]
  try decide

/-- Claim C10, witnessed at a concrete hyphenated reference. -/
theorem translate_hyphen_ref_only_quoted_witness :
    translate_bigquery_sql "SELECT * FROM `my-proj.ds`" "default" =
      "SELECT * FROM \"my-proj.ds\"" := by
  have h := translate_hyphen_ref_only_quoted "SELECT * FROM " "" "my-proj" "ds" "default"
    (by decide) (by decide) (by decide) (by decide) (by decide) (by decide)
  have e : ("SELECT * FROM " ++ "`" ++ "my-proj" ++ "." ++ "ds" ++ "`" ++ "" : String) =
      "SELECT * FROM `my-proj.ds`" := by decide
  rw [← e, h]
  decide

/-! ## The identifier sanitizer (`sanitize_table_name`) -/

/-- Error kinds raised by the tool: `ValueError` from the sanitizer and
`FileNotFoundError` from the registrar, each carrying its message. -/
inductive Err where
  | invalidIdentifier (msg : String)
  | noDataFound (msg : String)
deriving DecidableEq

instance {e a : Type} [DecidableEq e] [DecidableEq a] : DecidableEq (Except e a) := fun
  | .error e1, .error e2 =>
    match decEq e1 e2 with
    | isTrue h => isTrue (by rw [h])
    | isFalse h => isFalse (by intro hx; cases hx; exact h rfl)
  | .error _, .ok _ => isFalse (by intro hx; cases hx)
  | .ok _, .error _ => isFalse (by intro hx; cases hx)
  | .ok a1, .ok a2 =>
    match decEq a1 a2 with
    | isTrue h => isTrue (by rw [h])
    | isFalse h => isFalse (by intro hx; cases hx; exact h rfl)

/-- One character of `re.sub(r"[^A-Za-z0-9_]", "_", raw)`: characters outside
`[A-Za-z0-9_]` are replaced by an underscore. -/
def substChar (c : Char) : Char := if isWordChar c then c else '_'

/-- The substituted, lower-cased form `re.sub(r"[^A-Za-z0-9_]", "_", raw).lower()`.
Lower-casing happens after the substitution, so it only ever acts on ASCII
characters, where `Char.toLower` agrees with Python's `str.lower`. -/
def sanitizeChars (l : List Char) : List Char := (l.map substChar).map Char.toLower

/-- Python `repr` of an identifier-like string (no embedded quotes or
escapes), as interpolated by `f"...{raw_name!r}"`. -/
def pyRepr (s : String) : String := "'" ++ s ++ "'"

/-- The sanitizer `sanitize_table_name(raw_name)`: substitute, lower-case,
fail on an empty result, and prepend `t_` when the result starts with a
digit. -/
def sanitize_table_name (raw : String) : Except Err String :=
  match sanitizeChars raw.data with
  | [] => .error (.invalidIdentifier ("Unable to create table name from: " ++ pyRepr raw))
  | c :: rest => if c.isDigit then .ok ⟨'t' :: '_' :: c :: rest⟩ else .ok ⟨c :: rest⟩

example : sanitize_table_name "123abc" = .ok "t_123abc" := by decide

example : sanitize_table_name "Yellow Taxi-2024" = .ok "yellow_taxi_2024" := by decide

/-- Characters legal in a sanitized name: `[a-z0-9_]`. -/
def isOutChar (c : Char) : Bool :=
  decide ((97 ≤ c.toNat ∧ c.toNat ≤ 122) ∨ (48 ≤ c.toNat ∧ c.toNat ≤ 57) ∨ c.toNat = 95)

lemma toNat_ofNat_of_valid {n : Nat} (h : n.isValidChar) : (Char.ofNat n).toNat = n := by
  rw [Char.ofNat, dif_pos h]
  simp [Char.ofNatAux, Char.toNat, UInt32.toNat]

lemma outChar_toLower_substChar (c : Char) :
    isOutChar (Char.toLower (substChar c)) = true := by
  by_cases hw : isWordChar c = true
  · rw [substChar, if_pos hw]
    rw [isWordChar, decide_eq_true_iff] at hw
    show isOutChar (Char.toLower c) = true
    rw [Char.toLower]
    by_cases hu : c.toNat ≥ 65 ∧ c.toNat ≤ 90
    · rw [if_pos hu]
      have hv : (c.toNat + 32).isValidChar := by
        unfold Nat.isValidChar
        left
        omega
      rw [isOutChar, decide_eq_true_iff, toNat_ofNat_of_valid hv]
      left
      omega
    · rw [if_neg hu]
      rw [isOutChar, decide_eq_true_iff]
      rcases hw with h | h | h | h
      · exact absurd ⟨h.1, h.2⟩ hu
      · exact Or.inl h
      · exact Or.inr (Or.inl h)
      · exact Or.inr (Or.inr h)
  · rw [substChar, if_neg hw]
    decide

lemma sanitizeChars_outChar {l : List Char} : ∀ c ∈ sanitizeChars l, isOutChar c = true := by
  intro c hc
  simp only [sanitizeChars, List.mem_map] at hc
  obtain ⟨c1, ⟨c0, _, rfl⟩, rfl⟩ := hc
  exact outChar_toLower_substChar c0

/-- Claim C4: on success, the sanitized name contains only `[a-z0-9_]`
characters and does not start with a digit; in particular
`sanitize("123abc") = "t_123abc"`. -/
theorem sanitize_output_charset (r s : String) (h : sanitize_table_name r = .ok s) :
    (∀ c ∈ s.data, isOutChar c = true) ∧
      (∀ c, s.data.head? = some c → c.isDigit = false) ∧
      sanitize_table_name "123abc" = .ok "t_123abc" := by
  refine and_assoc.mp (And.intro ?_ (by decide))
  simp only [sanitize_table_name] at h
  split at h
  · cases h
  · rename_i c rest heq
    by_cases hd : c.isDigit
    · rw [if_pos hd] at h
      cases h
      constructor
      · intro x hx
        simp only [List.mem_cons] at hx
        rcases hx with rfl | rfl | hx
        · decide
        · decide
        · exact sanitizeChars_outChar x (by rw [heq]; exact List.mem_cons.mpr hx)
      · intro x hx
        simp only [List.head?_cons] at hx
        injection hx with hx
        subst hx
        decide
    · rw [if_neg hd] at h
      cases h
      constructor
      · intro x hx
        exact sanitizeChars_outChar x (by rw [heq]; exact hx)
      · intro x hx
        simp only [List.head?_cons] at hx
        injection hx with hx
        subst hx
        simpa using hd

/-- Claim C4, witnessed at `sanitize("123abc")`. -/
theorem sanitize_output_charset_witness :
    (∀ c ∈ ("t_123abc" : String).data, isOutChar c = true) ∧
      (∀ c, ("t_123abc" : String).data.head? = some c → c.isDigit = false) ∧
      sanitize_table_name "123abc" = .ok "t_123abc" :=
  sanitize_output_charset "123abc" "t_123abc" (by decide)

/-- Claim C7: when the substituted, lower-cased form is empty the sanitizer
fails with the `ValueError` whose message embeds the raw input; for every
other input it succeeds (the sanitizer is a pure function). -/
theorem sanitize_empty_fails (r : String) :
    (sanitizeChars r.data = [] →
      sanitize_table_name r =
          .error (.invalidIdentifier ("Unable to create table name from: " ++ pyRepr r)) ∧
        ∃ a b : String, "Unable to create table name from: " ++ pyRepr r = a ++ r ++ b) ∧
      (sanitizeChars r.data ≠ [] → ∃ s, sanitize_table_name r = .ok s) := by
  constructor
  · intro he
    constructor
    · simp only [sanitize_table_name, he]
    · refine ⟨"Unable to create table name from: '", "'", ?_⟩
      apply String.ext
      simp [pyRepr, String.data_append, List.append_assoc]
  · intro he
    obtain ⟨c, rest, heq⟩ := List.exists_cons_of_ne_nil he
    simp only [sanitize_table_name, heq]
    by_cases hd : c.isDigit
    · exact ⟨_, by rw [if_pos hd]⟩
    · exact ⟨_, by rw [if_neg hd]⟩

/-- Claim C7, witnessed at the empty raw name and at a plain name. -/
theorem sanitize_empty_fails_witness :
    (sanitize_table_name "" =
        .error (.invalidIdentifier ("Unable to create table name from: " ++ pyRepr "")) ∧
      ∃ a b : String, "Unable to create table name from: " ++ pyRepr "" = a ++ "" ++ b) ∧
    ∃ s, sanitize_table_name "abc" = .ok s :=
  ⟨(sanitize_empty_fails "").1 (by decide), (sanitize_empty_fails "abc").2 (by decide)⟩

/-! ## The parquet-table registrar (`register_parquet_tables`) -/

/-- SQL statements the registrar executes against the engine, structurally:
the idempotent schema creation, the qualified view over a parquet file, and
its unqualified mirror view. -/
inductive Stmt where
  | createSchema (dataset : String)
  | createView (dataset table file : String)
  | mirrorView (table dataset : String)
deriving DecidableEq

/-- `Path.glob("*.parquet")` on one file name: fnmatch semantics, where `*`
matches any (possibly empty) sequence, so the name merely has to end in
`.parquet`; unlike the `glob` module, `pathlib` places no hidden-file
restriction on a leading dot, so `.parquet` and `.hidden.parquet` match. -/
def matchesGlob (f : String) : Bool :=
  List.isSuffixOf ".parquet".data f.data

/-- `Path.stem`: the name without its suffix; the suffix starts at the last
dot that is neither the first nor the last character of the name. -/
def pathStem (name : String) : String :=
  match name.data.reverse.findIdx? (fun c => c == '.') with
  | none => name
  | some j =>
    if 0 < name.data.length - 1 - j ∧ name.data.length - 1 - j < name.data.length - 1 then
      ⟨name.data.take (name.data.length - 1 - j)⟩
    else name

example : pathStem "a.parquet" = "a" := by decide

example : pathStem "A.parquet" = "A" := by decide

/-- Lexicographic code-point comparison (how Python's `sorted` orders the
path names of one directory). -/
def lexLe : List Char → List Char → Bool
  | [], _ => true
  | _ :: _, [] => false
  | a :: as, b :: bs =>
    if a.toNat < b.toNat then true
    else if b.toNat < a.toNat then false
    else lexLe as bs

/-- Stable insertion before the first strictly greater element. -/
def insertSorted (x : String) : List String → List String
  | [] => [x]
  | y :: ys => if lexLe x.data y.data then x :: y :: ys else y :: insertSorted x ys

/-- `sorted(...)`: stable ascending sort by path name. -/
def sortStrings (l : List String) : List String := l.foldr insertSorted []

/-- Decimal digit characters of `n` (the text produced by `f"{n}"`); the
fuel argument only drives termination and `n + 1` always suffices. -/
def decDigits : Nat → Nat → List Char
  | 0, _ => []
  | fuel + 1, n =>
    if n < 10 then [Char.ofNat (48 + n)]
    else decDigits fuel (n / 10) ++ [Char.ofNat (48 + n % 10)]

/-- Decimal rendering of a natural number. -/
def decRepr (n : Nat) : String := ⟨decDigits (n + 1) n⟩

/-- Collision candidate `f"{base_table_name}_{suffix}"`. -/
def candName (base : String) (k : Nat) : String := base ++ "_" ++ decRepr k

/-- The collision loop `while table_name in loaded_tables: suffix += 1; ...`,
run with explicit fuel; `bound.length + 1` fuel provably reaches a fresh
candidate because the candidates are pairwise distinct. -/
def resolveFrom (bound : List String) (base : String) : Nat → Nat → String
  | k, 0 => candName base k
  | k, fuel + 1 =>
    if candName base k ∈ bound then resolveFrom bound base (k + 1) fuel
    else candName base k

/-- Collision resolution for one base name against the names already bound:
the base itself when unused, otherwise the first unused of `base_2`,
`base_3`, .... -/
def resolveName (bound : List String) (base : String) : String :=
  if base ∈ bound then resolveFrom bound base 2 (bound.length + 1) else base

/-- The registration loop: per file in order, sanitize the stem, resolve
collisions against the names bound so far, execute the qualified view and
its unqualified mirror, and record the binding. -/
def registerLoop : List String → String → List Stmt → List (String × String) →
    List Stmt × Except Err (List (String × String))
  | [], _, stmts, acc => (stmts, .ok acc)
  | f :: rest, ds, stmts, acc =>
    match sanitize_table_name (pathStem f) with
    | .error e => (stmts, .error e)
    | .ok base =>
      registerLoop rest ds
        (stmts ++ [Stmt.createView ds (resolveName (acc.map Prod.fst) base) f,
          Stmt.mirrorView (resolveName (acc.map Prod.fst) base) ds])
        (acc ++ [(resolveName (acc.map Prod.fst) base, f)])

/-- `register_parquet_tables(connection, data_dir, dataset)`: glob and sort
the parquet files, fail with `FileNotFoundError` when none exist — before
any statement is executed — then create the schema and run the loop.
Returns the executed statements in order and the table-to-file mapping. -/
def register_parquet_tables (dataDir : String) (files : List String) (dataset : String) :
    List Stmt × Except Err (List (String × String)) :=
  if sortStrings (files.filter matchesGlob) = [] then
    ([], .error (.noDataFound ("No parquet files found in " ++ dataDir)))
  else
    registerLoop (sortStrings (files.filter matchesGlob)) dataset
      [Stmt.createSchema dataset] []

example : (register_parquet_tables "data" ["a.parquet", "A.parquet"] "taxi").2 =
    .ok [("a", "A.parquet"), ("a_2", "a.parquet")] := by decide

example : (register_parquet_tables "data" [".hidden.parquet"] "taxi").2 =
    .ok [("_hidden", ".hidden.parquet")] := by decide

example : (register_parquet_tables "data" [".parquet"] "taxi").2 =
    .ok [("_parquet", ".parquet")] := by decide

example : register_parquet_tables "data" ["b.parquet", "a.parquet"] "taxi" =
    ([Stmt.createSchema "taxi", Stmt.createView "taxi" "a" "a.parquet",
      Stmt.mirrorView "a" "taxi", Stmt.createView "taxi" "b" "b.parquet",
      Stmt.mirrorView "b" "taxi"],
     .ok [("a", "a.parquet"), ("b", "b.parquet")]) := by decide

/-! ### Distinctness of collision candidates -/

/-- Value of a decimal digit string (left fold), inverse to `decDigits`. -/
def decVal (l : List Char) : Nat := l.foldl (fun a c => a * 10 + (c.toNat - 48)) 0

lemma decVal_append_digit (l : List Char) (c : Char) :
    decVal (l ++ [c]) = decVal l * 10 + (c.toNat - 48) := by
  simp [decVal, List.foldl_append]

lemma digitChar_toNat {n : Nat} (h : n ≤ 9) : (Char.ofNat (48 + n)).toNat = 48 + n :=
  toNat_ofNat_of_valid (by unfold Nat.isValidChar; left; omega)

lemma decVal_decDigits : ∀ fuel n, n < fuel → decVal (decDigits fuel n) = n := by
  intro fuel
  induction fuel with
  | zero => intro n h; exact absurd h (Nat.not_lt_zero n)
  | succ fuel ih =>
    intro n h
    by_cases h10 : n < 10
    · simp only [decDigits, if_pos h10]
      have hc := digitChar_toNat (n := n) (by omega)
      simp [decVal, hc]
    · simp only [decDigits, if_neg h10]
      rw [decVal_append_digit]
      have hdiv : n / 10 < fuel := by
        have h1 : n / 10 < n := Nat.div_lt_self (by omega) (by omega)
        omega
      rw [ih (n / 10) hdiv]
      have hc := digitChar_toNat (n := n % 10) (by omega)
      rw [hc]
      have := Nat.div_add_mod n 10
      omega

lemma decRepr_inj {m n : Nat} (h : decRepr m = decRepr n) : m = n := by
  have hm := decVal_decDigits (m + 1) m (Nat.lt_succ_self m)
  have hn := decVal_decDigits (n + 1) n (Nat.lt_succ_self n)
  have hd : decDigits (m + 1) m = decDigits (n + 1) n := congrArg String.data h
  rw [hd, hn] at hm
  exact hm.symm

lemma candName_inj (base : String) {j k : Nat} (h : candName base j = candName base k) :
    j = k := by
  have hd : (candName base j).data = (candName base k).data := congrArg String.data h
  simp only [candName, String.data_append, List.append_assoc] at hd
  have h1 := List.append_cancel_left hd
  have h2 := List.append_cancel_left h1
  exact decRepr_inj (String.ext h2)

lemma not_all_cands_bound (bound : List String) (base : String) (k : Nat) :
    ¬ ∀ j, k ≤ j → j < k + (bound.length + 1) → candName base j ∈ bound := by
  intro H
  have hinj : Function.Injective (candName base) := fun a b hab => candName_inj base hab
  have hnd : ((List.range' k (bound.length + 1)).map (candName base)).Nodup :=
    (List.nodup_range' k (bound.length + 1)).map hinj
  have hsub : (List.range' k (bound.length + 1)).map (candName base) ⊆ bound := by
    intro x hx
    simp only [List.mem_map, List.mem_range'_1] at hx
    obtain ⟨j, ⟨hj1, hj2⟩, rfl⟩ := hx
    exact H j hj1 hj2
  have hlen := (List.subperm_of_subset hnd hsub).length_le
  simp only [List.length_map, List.length_range'] at hlen
  omega

/-! ### The collision loop returns the first unused candidate -/

lemma resolveFrom_spec (bound : List String) (base : String) :
    ∀ fuel k,
      (∃ j, k ≤ j ∧ resolveFrom bound base k fuel = candName base j ∧
        candName base j ∉ bound ∧ ∀ i, k ≤ i → i < j → candName base i ∈ bound) ∨
      (∀ j, k ≤ j → j < k + fuel → candName base j ∈ bound) := by
  intro fuel
  induction fuel with
  | zero =>
    intro k
    right
    intro j h1 h2
    exact absurd h2 (by omega)
  | succ fuel ih =>
    intro k
    by_cases hk : candName base k ∈ bound
    · rcases ih (k + 1) with ⟨j, hj1, hj2, hj3, hj4⟩ | hall
      · left
        refine ⟨j, by omega, ?_, hj3, ?_⟩
        · simp only [resolveFrom, if_pos hk]
          exact hj2
        · intro i h1 h2
          rcases Nat.eq_or_lt_of_le h1 with rfl | hlt
          · exact hk
          · exact hj4 i (by omega) h2
      · right
        intro j h1 h2
        rcases Nat.eq_or_lt_of_le h1 with rfl | hlt
        · exact hk
        · exact hall j (by omega) (by omega)
    · left
      refine ⟨k, Nat.le_refl k, by simp only [resolveFrom, if_neg hk], hk, ?_⟩
      intro i h1 h2
      exact absurd h2 (by omega)

lemma resolveName_spec (bound : List String) (base : String) :
    resolveName bound base ∉ bound ∧
      (base ∉ bound → resolveName bound base = base) ∧
      (base ∈ bound → ∃ k, 2 ≤ k ∧ resolveName bound base = candName base k ∧
        candName base k ∉ bound ∧ ∀ j, 2 ≤ j → j < k → candName base j ∈ bound) := by
  by_cases hb : base ∈ bound
  · rcases resolveFrom_spec bound base (bound.length + 1) 2 with ⟨j, hj1, hj2, hj3, hj4⟩ | hall
    · have hres : resolveName bound base = candName base j := by
        rw [resolveName, if_pos hb]
        exact hj2
      exact ⟨by rw [hres]; exact hj3, fun h => absurd hb h,
        fun _ => ⟨j, hj1, hres, hj3, hj4⟩⟩
    · exact absurd hall (not_all_cands_bound bound base 2)
  · have hres : resolveName bound base = base := by rw [resolveName, if_neg hb]
    exact ⟨by rw [hres]; exact hb, fun _ => hres, fun h => absurd h hb⟩

/-! ### The registration loop preserves distinctness and order -/

lemma registerLoop_ok : ∀ (fs : List String) (ds : String) (stmts : List Stmt)
    (acc : List (String × String)) (stmts' : List Stmt) (m : List (String × String)),
    registerLoop fs ds stmts acc = (stmts', .ok m) →
    ((acc.map Prod.fst).Nodup → (m.map Prod.fst).Nodup) ∧
      m.map Prod.snd = acc.map Prod.snd ++ fs := by
  intro fs
  induction fs with
  | nil =>
    intro ds stmts acc stmts' m h
    simp only [registerLoop] at h
    have h2 := congrArg Prod.snd h
    simp only at h2
    cases h2
    exact ⟨id, by simp⟩
  | cons f rest ih =>
    intro ds stmts acc stmts' m h
    simp only [registerLoop] at h
    split at h
    · exfalso
      have h2 := congrArg Prod.snd h
      simp at h2
    · rename_i base hbase
      obtain ⟨ih1, ih2⟩ := ih ds _ _ stmts' m h
      constructor
      · intro hnd
        apply ih1
        have hfresh := (resolveName_spec (acc.map Prod.fst) base).1
        simp only [List.map_append, List.map_cons, List.map_nil]
        rw [List.nodup_append]
        refine ⟨hnd, List.nodup_singleton _, ?_⟩
        intro x hx hx2
        simp only [List.mem_singleton] at hx2
        subst hx2
        exact hfresh hx
      · rw [ih2]
        simp [List.append_assoc]

/-- Claim C3: on a successful registration pass the bound table names are
pairwise distinct, the insertion order of the returned mapping follows the
sorted file order, a colliding base name receives the first unused numeric
suffix (`base` itself when unused, else `base_2`, `base_3`, ...), and a
directory holding `a.parquet` and `A.parquet` yields names `a` and `a_2`. -/
theorem register_names_unique_sorted (dataDir ds : String) (files : List String)
    (stmts : List Stmt) (m : List (String × String))
    (h : register_parquet_tables dataDir files ds = (stmts, .ok m)) :
    ((m.map Prod.fst).Nodup ∧
      m.map Prod.snd = sortStrings (files.filter matchesGlob)) ∧
    (∀ bound base, resolveName bound base ∉ bound ∧
      (base ∉ bound → resolveName bound base = base) ∧
      (base ∈ bound → ∃ k, 2 ≤ k ∧ resolveName bound base = candName base k ∧
        candName base k ∉ bound ∧ ∀ j, 2 ≤ j → j < k → candName base j ∈ bound)) ∧
    (register_parquet_tables dataDir ["a.parquet", "A.parquet"] ds).2 =
      .ok [("a", "A.parquet"), ("a_2", "a.parquet")] := by
  refine ⟨?_, fun bound base => resolveName_spec bound base, ?_⟩
  · rw [register_parquet_tables] at h
    split at h
    · exfalso
      have h2 := congrArg Prod.snd h
      simp at h2
    · obtain ⟨h1, h2⟩ := registerLoop_ok _ _ _ _ _ _ h
      refine ⟨h1 (by simp), ?_⟩
      rw [h2]
      simp
  · rfl

/-- Claim C3, witnessed at the case-colliding pair of files. -/
theorem register_names_unique_sorted_witness :
    (([("a", "A.parquet"), ("a_2", "a.parquet")].map
        (Prod.fst (α := String) (β := String))).Nodup ∧
      [("a", "A.parquet"), ("a_2", "a.parquet")].map Prod.snd =
        sortStrings (["a.parquet", "A.parquet"].filter matchesGlob)) ∧
    (∀ bound base, resolveName bound base ∉ bound ∧
      (base ∉ bound → resolveName bound base = base) ∧
      (base ∈ bound → ∃ k, 2 ≤ k ∧ resolveName bound base = candName base k ∧
        candName base k ∉ bound ∧ ∀ j, 2 ≤ j → j < k → candName base j ∈ bound)) ∧
    (register_parquet_tables "data" ["a.parquet", "A.parquet"] "taxi").2 =
      .ok [("a", "A.parquet"), ("a_2", "a.parquet")] :=
  register_names_unique_sorted "data" "taxi" ["a.parquet", "A.parquet"]
    [Stmt.createSchema "taxi", Stmt.createView "taxi" "a" "A.parquet",
      Stmt.mirrorView "a" "taxi", Stmt.createView "taxi" "a_2" "a.parquet",
      Stmt.mirrorView "a_2" "taxi"]
    [("a", "A.parquet"), ("a_2", "a.parquet")] (by decide)

/-- Claim C5: when no file with the `.parquet` extension is discovered, the
registrar fails with `FileNotFoundError` and executes no statement at all:
neither the schema creation nor any view registration happens. -/
theorem register_no_files_no_side_effects (dataDir ds : String) (files : List String)
    (h : files.filter matchesGlob = []) :
    register_parquet_tables dataDir files ds =
      ([], .error (.noDataFound ("No parquet files found in " ++ dataDir))) := by
  simp [register_parquet_tables, h, sortStrings]

/-- Claim C5, witnessed at a directory holding only a non-parquet file. -/
theorem register_no_files_no_side_effects_witness :
    register_parquet_tables "data" ["notes.txt"] "taxi" =
      ([], .error (.noDataFound ("No parquet files found in " ++ "data"))) :=
  register_no_files_no_side_effects "data" "taxi" ["notes.txt"] (by decide)

/-! ## The result renderer (`print_results`) -/

/-- One rendered cell: `"NULL" if value is None else str(value)` (cell
values are modelled by their `str` form). -/
def renderCell : Option String → String
  | none => "NULL"
  | some s => s

/-- Pointwise `widths[i] = max(widths[i], len(value))` over one row (rows
carry one value per column, as the engine's cursor guarantees). -/
def updateWidths : List Nat → List String → List Nat
  | ws, [] => ws
  | [], _ => []
  | w :: ws, v :: vs => max w v.length :: updateWidths ws vs

/-- Column widths: header widths raised by every displayed cell. -/
def computeWidths (columns : List String) (rows : List (List String)) : List Nat :=
  rows.foldl updateWidths (columns.map String.length)

/-- `value.ljust(width)`: left-justify, never truncate. -/
def ljust (s : String) (w : Nat) : String :=
  s ++ String.mk (List.replicate (w - s.length) ' ')

/-- `print_results(cursor, max_rows)` as its list of printed lines.  With no
column description only the success message is printed; otherwise up to
`max_rows + 1` rows are fetched to detect truncation, at most `max_rows`
are displayed, and a truncation notice stating `max_rows` is appended when
the extra row existed. -/
def print_results (description : Option (List String))
    (allRows : List (List (Option String))) (maxRows : Nat) : List String :=
  match description with
  | none => ["Statement executed successfully."]
  | some columns =>
    let fetched := allRows.take (maxRows + 1)
    let hasMore := decide (fetched.length > maxRows)
    let rows := fetched.take maxRows
    let stringRows := rows.map (fun row => row.map renderCell)
    let widths := computeWidths columns stringRows
    let header := String.intercalate " | " (List.zipWith ljust columns widths)
    let separator := String.intercalate "-+-"
      (widths.map (fun w => String.mk (List.replicate w '-')))
    header :: separator ::
      (stringRows.map (fun row => String.intercalate " | " (List.zipWith ljust row widths))
        ++ (if hasMore then ["... showing first " ++ decRepr maxRows ++ " rows"] else []))

example :
    print_results (some ["id", "name"]) [[some "1", some "ann"], [some "2", none]] 20 =
      ["id | name", "---+-----", "1  | ann ", "2  | NULL"] := by decide

example :
    print_results none [[some "1"]] 20 = ["Statement executed successfully."] := by decide

example :
    print_results (some ["n"]) [[some "1"], [some "2"], [some "3"]] 2 =
      ["n", "-", "1", "2", "... showing first 2 rows"] := by decide

/-- Claim C6: the renderer depends only on the first `max_rows + 1` rows of
the result (the fetch bound), displays exactly `min N max_rows` data rows,
and appends the truncation notice stating `max_rows` precisely when
`N > max_rows`. -/
theorem print_results_truncation (cols : List String)
    (rows : List (List (Option String))) (m : Nat) :
    (∃ hdr sep dataLines,
      print_results (some cols) rows m =
        hdr :: sep :: (dataLines ++
          (if m < rows.length
            then ["... showing first " ++ decRepr m ++ " rows"] else [])) ∧
      dataLines.length = min rows.length m) ∧
    print_results (some cols) rows m = print_results (some cols) (rows.take (m + 1)) m := by
  have hlen : (rows.take (m + 1)).length > m ↔ m < rows.length := by
    simp only [List.length_take]
    omega
  constructor
  · simp only [print_results]
    by_cases hm : m < rows.length
    · rw [if_pos (decide_eq_true_iff.mpr (hlen.mpr hm)), if_pos hm]
      refine ⟨_, _, _, rfl, ?_⟩
      simp only [List.length_map, List.length_take]
      omega
    · rw [if_neg (by simp only [decide_eq_true_iff]; exact fun hc => hm (hlen.mp hc)),
        if_neg hm]
      refine ⟨_, _, _, rfl, ?_⟩
      simp only [List.length_map, List.length_take]
      omega
  · simp [print_results, List.take_take]

/-! ## The command orchestrator (`main`) -/

inductive Dialect where
  | bigquery
  | duckdb
deriving DecidableEq

/-- The parsed command-line arguments, as produced by `parse_args`. -/
structure Args where
  dataDir : String
  dataset : String
  dialect : Dialect
  query : Option String
  queryFile : Option String
  showSql : Bool
  maxRows : Nat
deriving DecidableEq

/-- Observable effects of one invocation, in program order. -/
inductive Eff where
  | connect
  | sql (s : Stmt)
  | readFile (p : String)
  | execQuery (q : String)
  | printLine (s : String)
deriving DecidableEq

/-- Process outcome: `SystemExit` with a message (a non-zero exit status),
an uncaught exception, or a normal zero exit. -/
inductive Outcome where
  | systemExit (msg : String)
  | uncaught (e : Err)
  | finished
deriving DecidableEq

/-- Python truthiness of an optional string: `None` and `""` are falsy. -/
def truthy : Option String → Bool
  | none => false
  | some s => !s.data.isEmpty

/-- `main()`, modelled over its environment: the data-directory listing, the
file-system read, and the engine's response to a statement; returns the
effect trace and the process outcome.  The conflict check is Python's
`if args.query and args.query_file:` — string truthiness on the left (an
empty `--query` string is falsy), while a `Path` value is always truthy.
When registration succeeds the mapping is nonempty, so the example line's
`next(iter(tables))` is modelled totally with a default. -/
def main (args : Args) (dirFiles : List String) (readF : String → String)
    (engine : String → Except String (Option (List String) × List (List (Option String)))) :
    List Eff × Outcome :=
  if truthy args.query && args.queryFile.isSome then
    ([], .systemExit "Use either --query or --query-file, not both.")
  else
    match register_parquet_tables args.dataDir dirFiles args.dataset with
    | (stmts, .error e) => (Eff.connect :: stmts.map Eff.sql, .uncaught e)
    | (stmts, .ok tables) =>
      let trace0 := Eff.connect :: stmts.map Eff.sql
      let readTrace := match args.queryFile with
        | some p => [Eff.readFile p]
        | none => []
      let queryText := match args.queryFile with
        | some p => some (readF p)
        | none => args.query
      if !truthy queryText then
        (trace0 ++ readTrace ++
          (("Loaded parquet tables:" ::
            tables.map (fun nt => "- " ++ args.dataset ++ "." ++ nt.1 ++ " <- " ++ nt.2)) ++
            ["\nExample:",
              "uv run python main.py --query 'SELECT COUNT(*) AS trips FROM `local." ++
                args.dataset ++ "." ++ (tables.head?.elim "" Prod.fst) ++ "`'"]).map
            Eff.printLine,
          .finished)
      else
        let qt := queryText.getD ""
        let translated :=
          if args.dialect = Dialect.bigquery then translate_bigquery_sql qt args.dataset
          else qt
        let showTrace :=
          if args.showSql then
            [Eff.printLine "SQL sent to DuckDB:", Eff.printLine translated, Eff.printLine ""]
          else []
        match engine translated with
        | .error e =>
          (trace0 ++ readTrace ++ showTrace ++ [Eff.execQuery translated],
            .systemExit ("Query failed: " ++ e))
        | .ok (desc, rows) =>
          (trace0 ++ readTrace ++ showTrace ++ [Eff.execQuery translated] ++
            (print_results desc rows args.maxRows).map Eff.printLine, .finished)

/-- Claim C8 as stated is false on the code: with `--query ""` and a query
file both given, the truthiness check `if args.query and args.query_file:`
does not fire and the invocation proceeds (connects, registers, reads the
file and executes the query) instead of exiting. -/
theorem main_conflict_check_counterexample :
    main ⟨"data", "taxi", Dialect.bigquery, some "", some "q.sql", false, 20⟩
        ["a.parquet"] (fun _ => "SELECT 1") (fun _ => .ok (none, [])) ≠
      ([], .systemExit "Use either --query or --query-file, not both.") := by
  decide

/-- Claim C8, amended: for every invocation in which a non-empty `--query`
value and a `--query-file` value are both given, the process terminates with
`SystemExit` (non-zero status) carrying a one-line message, and its effect
trace is empty — the check precedes any I/O (no connection, no file read). -/
theorem main_conflict_check (args : Args) (dirFiles : List String)
    (readF : String → String)
    (engine : String → Except String (Option (List String) × List (List (Option String))))
    (q f : String) (hq : args.query = some q) (hq0 : q ≠ "") (hf : args.queryFile = some f) :
    main args dirFiles readF engine =
        ([], .systemExit "Use either --query or --query-file, not both.") ∧
      ∀ c ∈ ("Use either --query or --query-file, not both." : String).data, c ≠ '\n' := by
  have hq' : truthy args.query = true := by
    rw [hq]
    show (!q.data.isEmpty) = true
    cases hd : q.data with
    | nil => exact absurd (String.ext (by rw [hd])) hq0
    | cons c cs => rfl
  have hcond : (truthy args.query && args.queryFile.isSome) = true := by
    rw [hq', hf]
    rfl
  constructor
  · simp [main, hcond]
  · decide

/-- Claim C8 (amended), witnessed at a concrete conflicting invocation. -/
theorem main_conflict_check_witness :
    main ⟨"data", "taxi", Dialect.bigquery, some "SELECT 1", some "q.sql", false, 20⟩
        ["a.parquet"] (fun _ => "") (fun _ => .ok (none, [])) =
        ([], .systemExit "Use either --query or --query-file, not both.") ∧
      ∀ c ∈ ("Use either --query or --query-file, not both." : String).data, c ≠ '\n' :=
  main_conflict_check _ ["a.parquet"] (fun _ => "") (fun _ => .ok (none, []))
    "SELECT 1" "q.sql" rfl (by decide) rfl

end DataWarehousing
